import Mathlib

/-!
Verification development for the directive extraction and patch-application
engine of the Coder repository (json-parser.js / server.js / github.js).

The JavaScript source is shallowly embedded: objects become structures,
the remote GitHub file store becomes an explicit interface threaded through
the functions, exceptions become Except, and the quirks of JavaScript
numbers that the code actually exercises (parseInt producing NaN, NaN
comparisons being false, Array.prototype.splice coercing a NaN start index
to 0) are modelled explicitly with an Option Int where none stands for NaN.
-/

namespace Coder

/-! ## JavaScript primitive modelling -/

/-- A JavaScript number used as a line index: some n is the integer n, none is NaN.
JSON never carries NaN, but parseInt produces it for non-numeric strings. -/
abbrev JSNum := Option Int

/-- JS < with NaN semantics: any comparison involving NaN is false. -/
def jsLt : JSNum → JSNum → Bool
  | some a, some b => decide (a < b)
  | _, _ => false

/-- JS > with NaN semantics: any comparison involving NaN is false. -/
def jsGt : JSNum → JSNum → Bool
  | some a, some b => decide (b < a)
  | _, _ => false

/-- JS >= with NaN semantics: any comparison involving NaN is false. -/
def jsGe : JSNum → JSNum → Bool
  | some a, some b => decide (b ≤ a)
  | _, _ => false

/-- JS subtraction on line numbers; NaN propagates. -/
def jsSub : JSNum → JSNum → JSNum
  | some a, some b => some (a - b)
  | _, _ => none

/-- Rendering of a line number inside a template literal, as in
the source messages Line NaN out of range. -/
def jsNumToStr : JSNum → String
  | none => "NaN"
  | some n => toString n

/-- A primitive JSON value appearing in a raw candidate field:
a string or an (integer) number.  The wire format the model is prompted
with uses integer line numbers, so non-integer numerals are not modelled. -/
inductive JSPrim
  | str (s : String)
  | num (n : Int)
deriving DecidableEq, Repr

/-- JS truthiness of a primitive: the empty string and 0 are falsy. -/
def JSPrim.truthy : JSPrim → Bool
  | .str s => decide (s ≠ "")
  | .num n => decide (n ≠ 0)

/-- typeof v === a string -/
def JSPrim.isStr : JSPrim → Bool
  | .str _ => true
  | .num _ => false

/-- JS String(v) coercion. -/
def JSPrim.toStr : JSPrim → String
  | .str s => s
  | .num n => toString n

/-- ASCII lower-casing of one character, as String.prototype.toLowerCase
acts on the ASCII action names used by the wire format. -/
def lowerChar (c : Char) : Char :=
  if c.toNat ≥ 65 ∧ c.toNat ≤ 90 then Char.ofNat (c.toNat + 32) else c

/-- op.action.toLowerCase() for the ASCII action strings of the wire format. -/
def lowerStr (s : String) : String := ⟨s.data.map lowerChar⟩

/-- Decimal digits of a leading digit run, folded to a number. -/
def parseDigits (cs : List Char) : Option Nat :=
  let ds := cs.takeWhile (fun c => decide ('0' ≤ c) && decide (c ≤ '9'))
  if ds.isEmpty then none
  else some (ds.foldl (fun acc c => acc * 10 + (c.toNat - 48)) 0)

/-- JS parseInt on a string: skip leading whitespace, optional sign, then the
longest run of decimal digits; NaN (none) when that run is empty.  The
hexadecimal 0x prefix form of parseInt is not modelled: no directive field
in scope uses it. -/
def parseIntChars (cs : List Char) : Option Int :=
  let cs := cs.dropWhile (fun c => c = ' ' ∨ c = '\t' ∨ c = '\n' ∨ c = '\r')
  match cs with
  | '-' :: rest => (parseDigits rest).map (fun n => -(n : Int))
  | '+' :: rest => (parseDigits rest).map (fun n => (n : Int))
  | _ => (parseDigits cs).map (fun n => (n : Int))

/-- parseInt applied to a raw field value: a number is already integral
(parseInt round-trips it through its decimal string), a string is parsed. -/
def parseIntPrim : JSPrim → JSNum
  | .num n => some n
  | .str s => parseIntChars s.data

/-- str.split with separator a newline, on the character list. -/
def splitNlChars : List Char → List (List Char)
  | [] => [[]]
  | c :: t =>
    let rest := splitNlChars t
    if c = '\n' then [] :: rest
    else
      match rest with
      | [] => [[c]]
      | h :: t2 => (c :: h) :: t2

/-- content.split of the newline character, matching JS semantics:
the empty string yields one empty line, a trailing newline yields a
trailing empty line. -/
def splitNl (s : String) : List String := (splitNlChars s.data).map (fun cs => ⟨cs⟩)

/-- lines.join of the newline character; the empty list joins to the
empty string. -/
def joinNl : List String → String
  | [] => ""
  | [s] => s
  | s :: t => s ++ "\n" ++ joinNl t

/-- Does hay contain needle as a contiguous run (String.prototype.includes)? -/
def containsRun (needle : List Char) : List Char → Bool
  | [] => needle.isEmpty
  | c :: t => needle.isPrefixOf (c :: t) || containsRun needle t

/-- hay.includes(needle) on strings. -/
def strIncludes (hay needle : String) : Bool := containsRun needle.data hay.data

/-! ## Data model (json-parser.js) -/

/-- The four directive kinds accepted by validateOperation. -/
inductive Action
  | insert
  | delete
  | create
  | delete_file
deriving DecidableEq, Repr

/-- A validated directive as produced by validateOperation: a plain object
with an action tag, target file, and the fields the action needs.  The line
field is a JS number because parseInt can yield NaN (a documented hazard
proved below). -/
structure VOp where
  action : Action
  file : String
  line : JSNum := none
  code : String := ""
  content : String := ""
deriving DecidableEq, Repr

/-- A raw candidate object recovered by extraction, before validation:
each directive field may be absent (undefined) or hold a primitive. -/
structure RawOp where
  action : Option JSPrim := none
  file : Option JSPrim := none
  line : Option JSPrim := none
  code : Option JSPrim := none
  content : Option JSPrim := none
deriving DecidableEq, Repr

/-- One per-directive outcome pushed onto the results array; absent JS
object fields are none. -/
structure OperationResult where
  file : Option String := none
  action : Option String := none
  success : Bool
  error : Option String := none
  message : Option String := none
  commit : Option String := none
  operations : Option Nat := none
deriving DecidableEq, Repr

/-- A file snapshot returned by github.getFileContent: decoded content plus
the version tag (sha) used as the optimistic-concurrency precondition. -/
structure FileData where
  content : String
  sha : String
deriving DecidableEq, Repr

/-- The github.js module interface consumed by json-parser.js, over an
abstract remote state σ.  Reads do not change the state; a failed call
carries the thrown error message and leaves the state unchanged (the
functions of github.js construct these messages and rethrow). -/
structure Gh (σ : Type) where
  getFileContent : σ → String → Except String FileData
  updateFile : σ → String → String → String → String → Except String (σ × String)
  createFile : σ → String → String → String → Except String (σ × String)
  deleteFile : σ → String → String → String → Except String (σ × String)

/-- Error message built by github.getFileContent for a 404 response. -/
def mkNotFoundMsg (p : String) : String := "File not found: " ++ p ++ " (404)"

/-- Error message built by github.getFileContent for any other failed
response; status renders the HTTP status, or Unknown without a response. -/
def mkGetFailMsg (p status : String) : String :=
  "Failed to get file: " ++ p ++ " (Status: " ++ status ++ ")"

/-! ## Directive validation (json-parser.js, validateOperation) -/

/-- The acceptance test the validator applies to op.action and op.file:
the guard !x || typeof x !== a string rejects an absent field, a
non-string, and the falsy empty string. -/
def validStrField : Option JSPrim → Option String
  | some (.str s) => if s = "" then none else some s
  | _ => none

/-- validateOperation: checks the raw candidate against the directive
schema, coerces field types, and throws (models as .error) otherwise.
NOTE faithfully to the source, a present but non-numeric line field is NOT
rejected: parseInt turns it into NaN, modelled as line := none. -/
def validateOperation (op : RawOp) : Except String VOp :=
  match validStrField op.action with
  | none => .error ("Operation must have an \"action\" string")
  | some a =>
    match validStrField op.file with
    | none => .error ("Operation must have a \"file\" string")
    | some file =>
      let action := lowerStr a
      if action = "create" then
        match op.content with
        | none => .error ("Create operation must have \"content\"")
        | some c => .ok { action := Action.create, file := file, content := c.toStr }
      else if action = "delete_file" then
        .ok { action := Action.delete_file, file := file }
      else if action = "insert" then
        match op.line, op.code with
        | some l, some c =>
          .ok { action := Action.insert, file := file, line := parseIntPrim l, code := c.toStr }
        | _, _ => .error ("Insert operation must have \"line\" and \"code\"")
      else if action = "delete" then
        match op.line, op.code with
        | some l, some c =>
          .ok { action := Action.delete, file := file, line := parseIntPrim l, code := c.toStr }
        | _, _ => .error ("Delete operation must have \"line\" and \"code\"")
      else
        .error ("Unknown action: " ++ action)

/-! ## Line-patch engine (json-parser.js, deleteAtLine / insertAtLine) -/

/-- Message of the out-of-range throw sites. -/
def outOfRangeMsg (ln : JSNum) : String :=
  "Line " ++ jsNumToStr ln ++ " out of range"

/-- Message of the content-mismatch throw site of deleteAtLine. -/
def mismatchMsg (ln : JSNum) : String :=
  "Code at line " ++ jsNumToStr ln ++ " does not match expected content"

/-- Array.prototype.splice start-index coercion: ToIntegerOrInfinity maps
NaN to 0, negative indices count from the end clamped at 0, and positive
indices are clamped at the length. -/
def spliceIndex : JSNum → Nat → Nat
  | none, _ => 0
  | some i, len => if i < 0 then ((len : Int) + i).toNat else min i.toNat len

/-- deleteAtLine: 0-based index = line - 1; out of range when index < 0 or
index >= length (both comparisons false for NaN); the expected lines are
code split on newlines and each must equal the stored line at its offset
(an indexed read at NaN yields undefined and never matches); on success the
matched run is spliced out. -/
def deleteAtLine (lines : List String) (lineNumber : JSNum) (codeToDelete : String) :
    Except String (List String) :=
  let index := jsSub lineNumber (some 1)
  if jsLt index (some 0) || jsGe index (some (lines.length : Int)) then
    .error (outOfRangeMsg lineNumber)
  else
    let deleteLines := splitNl codeToDelete
    match index with
    | none => .error (mismatchMsg lineNumber)
    | some i =>
      if deleteLines.isPrefixOf (lines.drop i.toNat) then
        .ok (lines.take (spliceIndex (some i) lines.length) ++
             lines.drop (spliceIndex (some i) lines.length + deleteLines.length))
      else .error (mismatchMsg lineNumber)

/-- insertAtLine: 0-based index = line - 1; out of range when index < 0 or
index > length (both comparisons false for NaN, so a NaN line slips past
the guard and splice coerces its start index to 0); the code lines are
spliced in as a block at the index. -/
def insertAtLine (lines : List String) (lineNumber : JSNum) (codeToInsert : String) :
    Except String (List String) :=
  let index := jsSub lineNumber (some 1)
  if jsLt index (some 0) || jsGt index (some (lines.length : Int)) then
    .error (outOfRangeMsg lineNumber)
  else
    let insertLines := splitNl codeToInsert
    let k := spliceIndex index lines.length
    .ok (lines.take k ++ insertLines ++ lines.drop k)

/-! ## Intra-file ordering (json-parser.js, the sort in processFileOperations) -/

/-- The tie branch of the comparator: on equal lines delete sorts before
insert; every other pair of actions compares equal. -/
def actionTie : Action → Action → Int
  | Action.delete, Action.insert => -1
  | Action.insert, Action.delete => 1
  | _, _ => 0

/-- The sort comparator.  In JS, b.line !== a.line is true whenever either
side is NaN and the subtraction then returns NaN, which SortCompare maps to
+0; hence every comparison involving a NaN line is modelled as 0. -/
def jsCompare (a b : VOp) : Int :=
  match a.line, b.line with
  | some la, some lb => if la = lb then actionTie a.action b.action else lb - la
  | _, _ => 0

/-- comparator(a, b) <= 0: a may stay left of b. -/
def opLE (a b : VOp) : Bool := decide (jsCompare a b ≤ 0)

/-- Stable insertion of one element into a sorted run: placed before the
first element it compares at-most-equal to. -/
def insertSorted (a : VOp) : List VOp → List VOp
  | [] => [a]
  | b :: l => if opLE a b then a :: b :: l else b :: insertSorted a l

/-- operations.sort with the comparator above.  For all-numeric lines the
comparator is consistent and ECMAScript then fully determines the result as
the stable sort; with a NaN line the comparator is inconsistent and the JS
result is implementation-defined, so the model commits to the stable
insertion sort. -/
def sortOps : List VOp → List VOp
  | [] => []
  | a :: l => insertSorted a (sortOps l)

/-! ## Per-file application and the scheduler (json-parser.js) -/

/-- The execution loop over the sorted group: delete directives go through
deleteAtLine, insert directives through insertAtLine, anything else is
skipped; the first throw aborts the group. -/
def applyOps : List VOp → List String → Except String (List String)
  | [], lines => .ok lines
  | op :: rest, lines =>
    if op.action = Action.delete then
      match deleteAtLine lines op.line op.code with
      | .error e => .error e
      | .ok l2 => applyOps rest l2
    else if op.action = Action.insert then
      match insertAtLine lines op.line op.code with
      | .error e => .error e
      | .ok l2 => applyOps rest l2
    else applyOps rest lines

/-- processFileOperations: fetch the file, split into lines, sort the
group, apply it, and only then write the joined result back with the
fetched sha; any throw escapes before the write. -/
def processFileOperations {σ : Type} (G : Gh σ) (st : σ) (filePath : String)
    (operations : List VOp) : Except String (σ × OperationResult) :=
  match G.getFileContent st filePath with
  | .error e => .error e
  | .ok fileData =>
    match applyOps (sortOps operations) (splitNl fileData.content) with
    | .error e => .error e
    | .ok newLines =>
      match G.updateFile st filePath (joinNl newLines) fileData.sha
          ("Applied " ++ toString operations.length ++ " operation(s) via chat interface") with
      | .error e => .error e
      | .ok (st2, commit) =>
        .ok (st2, { file := some filePath, action := some ("modify"), success := true,
                    operations := some operations.length, commit := some commit })

/-- The caller of processFileOperations in parseAndExecuteJSON: a throw is
caught and pushed as one failed result for the file, with the remote state
untouched (no write happened). -/
def modifyStep {σ : Type} (G : Gh σ) (st : σ) (filePath : String) (ops : List VOp) :
    σ × OperationResult :=
  match processFileOperations G st filePath ops with
  | .ok r => r
  | .error e =>
    (st, { file := some filePath, action := some ("modify"), success := false, error := some e })

/-- deleteFile of json-parser.js: fetch for the sha, then delete
preconditioned on it; its own catch turns any throw into a failed result. -/
def deleteFile {σ : Type} (G : Gh σ) (st : σ) (filePath : String) : σ × OperationResult :=
  match G.getFileContent st filePath with
  | .error e =>
    (st, { file := some filePath, action := some ("delete_file"), success := false,
           error := some e })
  | .ok d =>
    match G.deleteFile st filePath d.sha ("Deleted file via chat interface") with
    | .error e =>
      (st, { file := some filePath, action := some ("delete_file"), success := false,
             error := some e })
    | .ok (st2, commit) =>
      (st2, { file := some filePath, action := some ("delete_file"), success := true,
              message := some ("File deleted successfully"), commit := some commit })

/-- The inner try of createFile in json-parser.js: fetch, and on success
update with the fetched sha; a throw from either call lands in the inner
catch, which issues a genuine create when the message looks like the 404
signal and rethrows otherwise.  A throw from the catch block itself
escapes to the outer catch. -/
def createInner {σ : Type} (G : Gh σ) (st : σ) (filePath content : String) :
    Except String (σ × OperationResult) :=
  let tryUpdate : Except String (σ × OperationResult) :=
    match G.getFileContent st filePath with
    | .error e => .error e
    | .ok existing =>
      match G.updateFile st filePath content existing.sha
          ("Created/updated file via chat interface") with
      | .error e => .error e
      | .ok (st2, commit) =>
        .ok (st2, { file := some filePath, action := some ("create"), success := true,
                    message := some ("File updated (already existed)"),
                    commit := some commit })
  match tryUpdate with
  | .ok r => .ok r
  | .error e =>
    if strIncludes e ("404") || strIncludes e ("Not Found") then
      match G.createFile st filePath content ("Created new file via chat interface") with
      | .error e2 => .error e2
      | .ok (st2, commit) =>
        .ok (st2, { file := some filePath, action := some ("create"), success := true,
                    message := some ("File created successfully"), commit := some commit })
    else .error e

/-- createFile of json-parser.js: the outer catch turns any escaped throw
into a failed result for the directive. -/
def createFile {σ : Type} (G : Gh σ) (st : σ) (filePath content : String) :
    σ × OperationResult :=
  match createInner G st filePath content with
  | .ok r => r
  | .error e =>
    (st, { file := some filePath, action := some ("create"), success := false, error := some e })

/-- One phase loop of parseAndExecuteJSON: run the step on each work item in
order, threading the remote state and pushing one result per item. -/
def runSteps {σ α : Type} (f : σ → α → σ × OperationResult) (st : σ) :
    List α → σ × List OperationResult
  | [] => (st, [])
  | a :: rest =>
    ((runSteps f (f st a).1 rest).1, (f st a).2 :: (runSteps f (f st a).1 rest).2)

/-- fileOperations[op.file].push(op): append op under its file key,
creating the key at the end on first sight, exactly the insertion order
that Object.entries later replays. -/
def insertGroup (o : VOp) : List (String × List VOp) → List (String × List VOp)
  | [] => [(o.file, [o])]
  | (q, l) :: t => if q = o.file then (q, l ++ [o]) :: t else (q, l) :: insertGroup o t

/-- The per-file grouping map of insert/delete directives. -/
def groupByFile (ops : List VOp) : List (String × List VOp) :=
  ops.foldl (fun acc o => insertGroup o acc) []

/-- The validation loop: invalid candidates are logged and skipped. -/
def validateAll (ops : List RawOp) : List VOp :=
  ops.filterMap (fun op => (validateOperation op).toOption)

/-- The create work queue, in batch order. -/
def createOpsOf (v : List VOp) : List VOp := v.filter (fun o => o.action = Action.create)

/-- The delete-file work queue, in batch order. -/
def deleteFileOpsOf (v : List VOp) : List VOp :=
  v.filter (fun o => o.action = Action.delete_file)

/-- The per-file insert/delete groups, keyed in first-appearance order. -/
def fileGroupsOf (v : List VOp) : List (String × List VOp) :=
  groupByFile (v.filter (fun o => o.action = Action.insert ∨ o.action = Action.delete))

/-- Phase 1: delete_file directives. -/
def deletePhase {σ : Type} (G : Gh σ) (st : σ) (ops : List VOp) : σ × List OperationResult :=
  runSteps (fun s o => deleteFile G s o.file) st ops

/-- Phase 2: per-file insert/delete groups. -/
def modifyPhase {σ : Type} (G : Gh σ) (st : σ) (gs : List (String × List VOp)) :
    σ × List OperationResult :=
  runSteps (fun s g => modifyStep G s g.1 g.2) st gs

/-- Phase 3: create directives. -/
def createPhase {σ : Type} (G : Gh σ) (st : σ) (ops : List VOp) : σ × List OperationResult :=
  runSteps (fun s o => createFile G s o.file o.content) st ops

/-- The argument of parseAndExecuteJSON: either an array of candidates or a
single candidate object (Array.isArray false), which is wrapped. -/
inductive OpsInput
  | arr (l : List RawOp)
  | single (o : RawOp)

/-- The wrapping step if (!Array.isArray(operations)) operations = [operations]. -/
def toOpsList : OpsInput → List RawOp
  | .arr l => l
  | .single o => [o]

/-- The validated directive list of a batch. -/
def validatedOf (input : OpsInput) : List VOp := validateAll (toOpsList input)

/-- parseAndExecuteJSON: validate, partition, then run the three phases in
their fixed macro order, concatenating results in execution order.  The
enclosing generic try/catch of the source is unreachable here because every
step already catches its own throws. -/
def parseAndExecuteJSON {σ : Type} (G : Gh σ) (st : σ) (input : OpsInput) :
    σ × List OperationResult :=
  let v := validatedOf input
  let d := deletePhase G st (deleteFileOpsOf v)
  let m := modifyPhase G d.1 (fileGroupsOf v)
  let c := createPhase G m.1 (createOpsOf v)
  (c.1, d.2 ++ m.2 ++ c.2)

/-! ## A concrete remote store instance

A pure model of the GitHub contents API for running the engine: a path to
snapshot map plus a counter minting fresh shas and commit ids.  Writes
succeed (version conflicts and network faults live in the transport, which
the failure-capable instance below exercises); a read of an absent path
fails with the 404 message github.getFileContent constructs. -/

/-- Store state: association list of path to snapshot, plus a freshness
counter for minted shas and commit ids. -/
structure Store where
  files : List (String × FileData)
  counter : Nat
deriving DecidableEq, Repr

/-- Replace the snapshot under a key, or append the key. -/
def upsert : List (String × FileData) → String → FileData → List (String × FileData)
  | [], p, d => [(p, d)]
  | (q, e) :: t, p, d => if q = p then (p, d) :: t else (q, e) :: upsert t p d

/-- Write content at a path, minting a fresh sha and commit id. -/
def storePut (st : Store) (p c : String) : Store × String :=
  ({ files := upsert st.files p { content := c, sha := "sha-" ++ toString st.counter },
     counter := st.counter + 1 },
   "commit-" ++ toString st.counter)

/-- Read a path; absent paths produce the 404 error message of
github.getFileContent. -/
def storeGet (st : Store) (p : String) : Except String FileData :=
  match st.files.lookup p with
  | some d => .ok d
  | none => .error (mkNotFoundMsg p)

/-- The github.js interface over the pure store. -/
def ghStore : Gh Store where
  getFileContent := storeGet
  updateFile := fun st p c _sha _msg => .ok (storePut st p c)
  createFile := fun st p c _msg => .ok (storePut st p c)
  deleteFile := fun st p _sha _msg =>
    .ok ({ st with files := st.files.filter (fun q => q.1 ≠ p) }, "commit-" ++ toString st.counter)

/-- A failure-capable instance: every fetch fails with the non-404 message
github.getFileContent builds for an HTTP 500 response, while writes
succeed.  Used to exercise the not-found misclassification of createFile. -/
def net500 : Gh Unit where
  getFileContent := fun _ p => .error (mkGetFailMsg p ("500"))
  updateFile := fun _ _ _ _ _ => .ok ((), "u-commit")
  createFile := fun _ _ _ _ => .ok ((), "c-commit")
  deleteFile := fun _ _ _ _ => .ok ((), "d-commit")

/-! ## Directive extraction (server.js and its library-based revision)

Only the kept-elements logic of an extracted span that parsed to a JSON
array is modelled; locating and repairing spans is textual. -/

/-- One element of a parsed JSON array: a candidate object, null, or a
bare primitive. -/
inductive JElem
  | obj (o : RawOp)
  | jnull
  | prim (p : JSPrim)
deriving DecidableEq, Repr

/-- Truthiness of a possibly-absent field: undefined is falsy. -/
def truthyField : Option JSPrim → Bool
  | none => false
  | some p => p.truthy

/-- The shape check op.action && op.file (with op an object): both fields
present and truthy.  null and bare primitives never pass it. -/
def elemHasActionFile : JElem → Bool
  | .obj o => truthyField o.action && truthyField o.file
  | _ => false

/-- The library-based extractor (the revision of server.js using
extract-json-from-string) keeps, from an array span,
parsed.filter(op => op && typeof op === an object && op.action && op.file):
null is falsy and a primitive has the wrong typeof, so the test coincides
with elemHasActionFile. -/
def libKeptFromArray (l : List JElem) : List JElem := l.filter elemHasActionFile

/-- The regex-based extractor of server.js keeps, from an array span, the
WHOLE array iff the FIRST element passes the shape check
(parsed.length > 0 && parsed[0].action && parsed[0].file): no per-element
filtering.  Reading a field of a null first element throws inside the
per-span try and the span is skipped, which also keeps nothing, agreeing
with the else branch here. -/
def serverKeptFromArray (l : List JElem) : List JElem :=
  match l with
  | [] => []
  | e :: _ => if elemHasActionFile e then l else []

/-! ## Concrete inputs used by witnesses and counterexamples -/

/-- A delete directive for line 5 expecting the content old. -/
def delOp5 : VOp := { action := Action.delete, file := "f.txt", line := some 5, code := "old" }

/-- An insert directive for line 5 carrying the content new. -/
def insOp5 : VOp := { action := Action.insert, file := "f.txt", line := some 5, code := "new" }

/-- A raw insert candidate whose line field is the non-numeric string abc. -/
def rawNaNInsert : RawOp :=
  { action := some (.str ("insert")), file := some (.str ("a.txt")),
    line := some (.str ("abc")), code := some (.str ("x")) }

/-- A two-directive modify group for witnesses: an insert at line 3 and an
insert at line 7, both with numeric lines. -/
def opsW : List VOp :=
  [ { action := Action.insert, file := "w.txt", line := some 3, code := "three" },
    { action := Action.insert, file := "w.txt", line := some 7, code := "seven" } ]

/-- A store holding one file a.txt with single-line content x. -/
def stA : Store := { files := [("a.txt", { content := "x", sha := "s0" })], counter := 1 }

/-- A delete directive that mismatches the content of a.txt in stA. -/
def opsBad : List VOp :=
  [ { action := Action.delete, file := "a.txt", line := some 1, code := "y" } ]

/-- The empty store. -/
def stEmpty : Store := { files := [], counter := 0 }

/-- A raw create candidate for a.txt with content x. -/
def rawCreateA : RawOp :=
  { action := some (.str ("create")), file := some (.str ("a.txt")), content := some (.str ("x")) }

/-- A conforming array element: an insert candidate with action and file. -/
def elemOk : JElem :=
  .obj { action := some (.str ("insert")), file := some (.str ("a.txt")),
         line := some (.num 1), code := some (.str ("x")) }

/-- A non-conforming array element: it has an action but no file field. -/
def elemBad : JElem := .obj { action := some (.str ("insert")) }

/-! ## Predicates used by the ordering theorems -/

/-- A directive as the scheduler actually feeds them to a modify group: an
insert or delete whose line survived parseInt as a number.  The sort
comparator is only consistent on such groups; with a NaN line the JS sort
result is implementation-defined. -/
def goodOp (o : VOp) : Prop :=
  o.line.isSome = true ∧ (o.action = Action.insert ∨ o.action = Action.delete)

instance (o : VOp) : Decidable (goodOp o) := by unfold goodOp; infer_instance

/-- The micro-ordering the spec requires between an earlier and a later
directive of the executed group: strictly larger line first, and on a tied
line never an insert before a delete. -/
def cR (a b : VOp) : Prop :=
  jsGt a.line b.line = true ∨
  (a.line = b.line ∧ ¬(a.action = Action.insert ∧ b.action = Action.delete))

end Coder

namespace Coder

/-! ## Helper lemmas -/

theorem runSteps_append {σ α : Type} (f : σ → α → σ × OperationResult) (st : σ)
    (xs ys : List α) :
    runSteps f st (xs ++ ys) =
      ((runSteps f (runSteps f st xs).1 ys).1,
       (runSteps f st xs).2 ++ (runSteps f (runSteps f st xs).1 ys).2) := by
  induction xs generalizing st with
  | nil => simp [runSteps]
  | cons a t ih => simp [runSteps, ih]

theorem runSteps_prop {σ α : Type} (f : σ → α → σ × OperationResult)
    (P : OperationResult → Prop) (hf : ∀ s a, P (f s a).2) (st : σ) (l : List α) :
    ∀ r ∈ (runSteps f st l).2, P r := by
  induction l generalizing st with
  | nil => simp [runSteps]
  | cons a t ih =>
    intro r hr
    simp only [runSteps, List.mem_cons] at hr
    rcases hr with rfl | hr
    · exact hf st a
    · exact ih _ r hr

theorem deleteFile_action {σ : Type} (G : Gh σ) (st : σ) (p : String) :
    (deleteFile G st p).2.action = some ("delete_file") := by
  unfold deleteFile
  rcases hg : G.getFileContent st p with e | d
  · simp
  · rcases hd : G.deleteFile st p d.sha ("Deleted file via chat interface") with e | r
    · simp [hd]
    · simp [hd]

theorem modifyStep_action {σ : Type} (G : Gh σ) (st : σ) (p : String) (ops : List VOp) :
    (modifyStep G st p ops).2.action = some ("modify") := by
  unfold modifyStep processFileOperations
  rcases hg : G.getFileContent st p with e | d
  · simp
  · rcases ha : applyOps (sortOps ops) (splitNl d.content) with e | nl
    · simp [ha]
    · rcases hu : G.updateFile st p (joinNl nl) d.sha
        ("Applied " ++ toString ops.length ++ " operation(s) via chat interface") with e | r
      · simp [ha, hu]
      · simp [ha, hu]

theorem createFile_action {σ : Type} (G : Gh σ) (st : σ) (p c : String) :
    (createFile G st p c).2.action = some ("create") := by
  unfold createFile createInner
  rcases hg : G.getFileContent st p with e | d
  · by_cases h : (strIncludes e ("404") || strIncludes e ("Not Found")) = true
    · rcases hc : G.createFile st p c ("Created new file via chat interface") with e2 | r
      · simp [h, hc]
      · simp [h, hc]
    · simp [h]
  · rcases hu : G.updateFile st p c d.sha ("Created/updated file via chat interface") with e | r
    · by_cases h : (strIncludes e ("404") || strIncludes e ("Not Found")) = true
      · rcases hc : G.createFile st p c ("Created new file via chat interface") with e2 | r
        · simp [hu, h, hc]
        · simp [hu, h, hc]
      · simp [hu, h]
    · simp [hu]

theorem modifyStep_of_applyFail {σ : Type} (G : Gh σ) (st : σ) (p : String) (ops : List VOp)
    (d : FileData) (e : String)
    (hget : G.getFileContent st p = .ok d)
    (hfail : applyOps (sortOps ops) (splitNl d.content) = .error e) :
    modifyStep G st p ops =
      (st, { file := some p, action := some ("modify"), success := false, error := some e }) := by
  unfold modifyStep processFileOperations
  rw [hget]
  simp [hfail]

theorem opLE_total (a b : VOp) (ha : goodOp a) (hb : goodOp b) :
    opLE a b = true ∨ opLE b a = true := by
  obtain ⟨hsa, hact⟩ := ha
  obtain ⟨la, hla⟩ := Option.isSome_iff_exists.mp hsa
  obtain ⟨hsb, hbact⟩ := hb
  obtain ⟨lb, hlb⟩ := Option.isSome_iff_exists.mp hsb
  simp only [opLE, jsCompare, hla, hlb, decide_eq_true_eq]
  by_cases h : la = lb
  · subst h
    rw [if_pos rfl, if_pos rfl]
    rcases hact with h1 | h1 <;> rcases hbact with h2 | h2 <;>
      rw [h1, h2] <;> simp [actionTie]
  · rw [if_neg h, if_neg (Ne.symm h)]
    omega

theorem opLE_trans (a b c : VOp) (ha : goodOp a) (hb : goodOp b) (hc : goodOp c)
    (h1 : opLE a b = true) (h2 : opLE b c = true) : opLE a c = true := by
  obtain ⟨hsa, hact⟩ := ha
  obtain ⟨la, hla⟩ := Option.isSome_iff_exists.mp hsa
  obtain ⟨hsb, hbact⟩ := hb
  obtain ⟨lb, hlb⟩ := Option.isSome_iff_exists.mp hsb
  obtain ⟨hsc, hcact⟩ := hc
  obtain ⟨lc, hlc⟩ := Option.isSome_iff_exists.mp hsc
  simp only [opLE, jsCompare, hla, hlb, hlc, decide_eq_true_eq] at h1 h2 ⊢
  by_cases hab : la = lb <;> by_cases hbc : lb = lc
  · subst hab; subst hbc
    rw [if_pos rfl] at h1 h2 ⊢
    rcases hact with g1 | g1 <;> rcases hbact with g2 | g2 <;> rcases hcact with g3 | g3 <;>
      rw [g1, g3] <;> rw [g1, g2] at h1 <;> rw [g2, g3] at h2 <;>
      simp [actionTie] at h1 h2 ⊢
  · subst hab
    rw [if_neg hbc] at h2
    rw [if_neg hbc]
    omega
  · subst hbc
    rw [if_neg hab] at h1
    rw [if_neg hab]
    omega
  · rw [if_neg hab] at h1
    rw [if_neg hbc] at h2
    have hac : la ≠ lc := by omega
    rw [if_neg hac]
    omega

theorem opLE_iff_cR (a b : VOp) (ha : goodOp a) (hb : goodOp b) :
    opLE a b = true ↔ cR a b := by
  obtain ⟨hsa, hact⟩ := ha
  obtain ⟨la, hla⟩ := Option.isSome_iff_exists.mp hsa
  obtain ⟨hsb, hbact⟩ := hb
  obtain ⟨lb, hlb⟩ := Option.isSome_iff_exists.mp hsb
  simp only [opLE, cR, jsCompare, jsGt, hla, hlb, decide_eq_true_eq, Option.some.injEq]
  by_cases h : la = lb
  · subst h
    rw [if_pos rfl]
    simp only [lt_irrefl, false_or, true_and]
    rcases hact with g1 | g1 <;> rcases hbact with g2 | g2 <;>
      rw [g1, g2] <;> simp [actionTie]
  · rw [if_neg h]
    constructor
    · intro hle
      exact Or.inl (by omega)
    · intro hr
      rcases hr with hlt | ⟨heq, _⟩
      · omega
      · exact absurd heq h

theorem insertSorted_perm (a : VOp) (l : List VOp) :
    (insertSorted a l).Perm (a :: l) := by
  induction l with
  | nil => exact List.Perm.refl _
  | cons b t ih =>
    unfold insertSorted
    by_cases h : opLE a b = true
    · rw [if_pos h]
    · rw [if_neg h]
      exact (ih.cons b).trans (List.Perm.swap a b t)

theorem sortOps_perm (l : List VOp) : (sortOps l).Perm l := by
  induction l with
  | nil => exact List.Perm.refl _
  | cons a t ih => exact (insertSorted_perm a (sortOps t)).trans (ih.cons a)

theorem insertSorted_pairwise (a : VOp) (l : List VOp) (ha : goodOp a)
    (hl : ∀ x ∈ l, goodOp x) (hp : l.Pairwise (fun x y => opLE x y = true)) :
    (insertSorted a l).Pairwise (fun x y => opLE x y = true) := by
  induction l with
  | nil => simp [insertSorted]
  | cons b t ih =>
    rw [List.pairwise_cons] at hp
    obtain ⟨hbt, hpt⟩ := hp
    have hb : goodOp b := hl b (by simp)
    have ht : ∀ x ∈ t, goodOp x := fun x hx => hl x (by simp [hx])
    unfold insertSorted
    by_cases h : opLE a b = true
    · rw [if_pos h]
      refine List.Pairwise.cons ?_ (List.Pairwise.cons hbt hpt)
      intro x hx
      rcases List.mem_cons.mp hx with rfl | hx
      · exact h
      · exact opLE_trans a b x ha hb (ht x hx) h (hbt x hx)
    · rw [if_neg h]
      refine List.Pairwise.cons ?_ (ih ht hpt)
      intro x hx
      have hx2 : x = a ∨ x ∈ t := by
        have := (insertSorted_perm a t).mem_iff.mp hx
        simpa using this
      rcases hx2 with rfl | hx2
      · rcases opLE_total x b ha hb with h1 | h1
        · exact absurd h1 h
        · exact h1
      · exact hbt x hx2

theorem sortOps_pairwise (l : List VOp) (hl : ∀ x ∈ l, goodOp x) :
    (sortOps l).Pairwise (fun x y => opLE x y = true) := by
  induction l with
  | nil => simp [sortOps]
  | cons a t ih =>
    have ht : ∀ x ∈ t, goodOp x := fun x hx => hl x (by simp [hx])
    have hs : ∀ x ∈ sortOps t, goodOp x := fun x hx => ht x ((sortOps_perm t).mem_iff.mp hx)
    exact insertSorted_pairwise a (sortOps t) (hl a (by simp)) hs (ih ht)

theorem insertAtLine_ok (lines : List String) (ln : Int) (code : String)
    (h0 : 1 ≤ ln) (h1 : ln ≤ (lines.length : Int) + 1) :
    insertAtLine lines (some ln) code =
      .ok (lines.take (ln - 1).toNat ++ splitNl code ++ lines.drop (ln - 1).toNat) := by
  unfold insertAtLine
  simp only [jsSub]
  have hlt : jsLt (some (ln - 1)) (some 0) = false := by
    simp only [jsLt, decide_eq_false_iff_not]
    omega
  have hgt : jsGt (some (ln - 1)) (some (lines.length : Int)) = false := by
    simp only [jsGt, decide_eq_false_iff_not]
    omega
  rw [hlt, hgt]
  have hsp : spliceIndex (some (ln - 1)) lines.length = (ln - 1).toNat := by
    simp only [spliceIndex]
    rw [if_neg (by omega)]
    exact min_eq_left (by omega)
  simp only [Bool.or_self, Bool.false_eq_true, if_false, hsp]

theorem insertAtLine_oor (lines : List String) (ln : Int) (code : String)
    (h : ln - 1 < 0 ∨ (lines.length : Int) < ln - 1) :
    insertAtLine lines (some ln) code = .error (outOfRangeMsg (some ln)) := by
  unfold insertAtLine
  simp only [jsSub]
  have hg : (jsLt (some (ln - 1)) (some 0) ||
      jsGt (some (ln - 1)) (some (lines.length : Int))) = true := by
    simp only [jsLt, jsGt, Bool.or_eq_true, decide_eq_true_eq]
    omega
  rw [hg]
  simp

theorem deleteAtLine_ok (lines : List String) (ln : Int) (code : String)
    (h0 : 1 ≤ ln) (h1 : ln ≤ (lines.length : Int))
    (hm : (splitNl code).isPrefixOf (lines.drop (ln - 1).toNat) = true) :
    deleteAtLine lines (some ln) code =
      .ok (lines.take (ln - 1).toNat ++
           lines.drop ((ln - 1).toNat + (splitNl code).length)) := by
  unfold deleteAtLine
  simp only [jsSub]
  have hlt : jsLt (some (ln - 1)) (some 0) = false := by
    simp only [jsLt, decide_eq_false_iff_not]
    omega
  have hge : jsGe (some (ln - 1)) (some (lines.length : Int)) = false := by
    simp only [jsGe, decide_eq_false_iff_not]
    omega
  rw [hlt, hge]
  have hsp : spliceIndex (some (ln - 1)) lines.length = (ln - 1).toNat := by
    simp only [spliceIndex]
    rw [if_neg (by omega)]
    exact min_eq_left (by omega)
  simp only [Bool.or_self, Bool.false_eq_true, if_false, hsp, hm, if_true]

end Coder

namespace Coder

theorem applyOps_delete_step (op : VOp) (rest : List VOp) (lines l2 : List String)
    (hop : op.action = Action.delete) (h : deleteAtLine lines op.line op.code = Except.ok l2) :
    applyOps (op :: rest) lines = applyOps rest l2 := by
  conv_lhs => rw [applyOps]
  rw [if_pos hop, h]

theorem applyOps_insert_step (op : VOp) (rest : List VOp) (lines l2 : List String)
    (hop : op.action = Action.insert) (h : insertAtLine lines op.line op.code = Except.ok l2) :
    applyOps (op :: rest) lines = applyOps rest l2 := by
  conv_lhs => rw [applyOps]
  rw [if_neg (by simp [hop]), if_pos hop, h]

end Coder

namespace Coder

/-! ## The claims -/

/-- C1: for every file line sequence and every insert/delete group for that
file, if some directive of the group fails during application (out-of-range
line or content mismatch, hfail), then no write of mutated content for that
file happens: the remote state entering the groups that follow is exactly
the state st1 from before the failing group (no partial splice is written
back, since processFileOperations throws before calling updateFile), the
group is reported as a single failed OperationResult, and the groups for
other files, before and after, are processed exactly as they would be
otherwise. -/
theorem C1_failed_group_writes_nothing {σ : Type} (G : Gh σ) (st st1 : σ)
    (gs1 gs2 : List (String × List VOp)) (r1 : List OperationResult)
    (p : String) (ops : List VOp) (d : FileData) (e : String)
    (h1 : modifyPhase G st gs1 = (st1, r1))
    (hget : G.getFileContent st1 p = .ok d)
    (hfail : applyOps (sortOps ops) (splitNl d.content) = .error e) :
    modifyPhase G st (gs1 ++ (p, ops) :: gs2) =
      ((modifyPhase G st1 gs2).1,
       r1 ++ ({ file := some p, action := some ("modify"), success := false,
                error := some e } : OperationResult) :: (modifyPhase G st1 gs2).2) := by
  have hstep := modifyStep_of_applyFail G st1 p ops d e hget hfail
  unfold modifyPhase at h1 ⊢
  rw [runSteps_append]
  simp only [h1]
  simp only [runSteps, hstep]

/-- Witness for C1: a one-file store whose single group carries a
mismatching delete; the phase leaves the store untouched and reports one
failed modify result. -/
theorem C1_failed_group_writes_nothing_witness :
    modifyPhase ghStore stA [("a.txt", opsBad)] =
      (stA, [{ file := some ("a.txt"), action := some ("modify"), success := false,
               error := some (mismatchMsg (some 1)) }]) := by
  simpa using
    C1_failed_group_writes_nothing ghStore stA stA [] [] [] "a.txt" opsBad
      { content := "x", sha := "s0" } (mismatchMsg (some 1)) rfl rfl rfl

/-- C2: for every insert/delete group whose directives all carry numeric
lines (on NaN lines the JS sort is not even deterministic), the executed
order sortOps is a permutation of the group that is pairwise ordered by cR:
strictly descending line numbers, and on a tied line never an insert before
a delete.  processFileOperations applies applyOps to exactly sortOps of the
group, so this is the application order. -/
theorem C2_group_order (ops : List VOp) (h : ∀ op ∈ ops, goodOp op) :
    (sortOps ops).Perm ops ∧ (sortOps ops).Pairwise cR := by
  refine ⟨sortOps_perm ops, ?_⟩
  have hs : ∀ x ∈ sortOps ops, goodOp x := fun x hx => h x ((sortOps_perm ops).mem_iff.mp hx)
  have hp := sortOps_pairwise ops h
  exact hp.imp_of_mem (fun {a b} ha hb hab => (opLE_iff_cR a b (hs a ha) (hs b hb)).mp hab)

/-- Witness for C2: a two-insert group on lines 3 and 7. -/
theorem C2_group_order_witness : (sortOps opsW).Perm opsW ∧ (sortOps opsW).Pairwise cR :=
  C2_group_order opsW (by decide)

/-- C3: for every validated batch, parseAndExecuteJSON runs the three
phases in the fixed order delete_file, then per-file insert/delete groups,
then create, concatenating their results in that order; the create phase
consumes the state st2 produced by the modify phase, so a create targeting
the same path as a modify group in the batch always executes after that
group. -/
theorem C3_macro_phase_order {σ : Type} (G : Gh σ) (st st1 st2 st3 : σ) (input : OpsInput)
    (r1 r2 r3 : List OperationResult)
    (h1 : deletePhase G st (deleteFileOpsOf (validatedOf input)) = (st1, r1))
    (h2 : modifyPhase G st1 (fileGroupsOf (validatedOf input)) = (st2, r2))
    (h3 : createPhase G st2 (createOpsOf (validatedOf input)) = (st3, r3)) :
    parseAndExecuteJSON G st input = (st3, r1 ++ r2 ++ r3) ∧
    (∀ r ∈ r1, r.action = some ("delete_file")) ∧
    (∀ r ∈ r2, r.action = some ("modify")) ∧
    (∀ r ∈ r3, r.action = some ("create")) := by
  refine ⟨?_, ?_, ?_, ?_⟩
  · simp only [parseAndExecuteJSON, h1, h2, h3]
  · intro r hr
    have hall := runSteps_prop (fun s (o : VOp) => deleteFile G s o.file)
        (fun r => r.action = some ("delete_file")) (fun s o => deleteFile_action G s o.file) st
        (deleteFileOpsOf (validatedOf input))
    unfold deletePhase at h1
    rw [h1] at hall
    exact hall r hr
  · intro r hr
    have hall := runSteps_prop (fun s (g : String × List VOp) => modifyStep G s g.1 g.2)
        (fun r => r.action = some ("modify")) (fun s g => modifyStep_action G s g.1 g.2) st1
        (fileGroupsOf (validatedOf input))
    unfold modifyPhase at h2
    rw [h2] at hall
    exact hall r hr
  · intro r hr
    have hall := runSteps_prop (fun s (o : VOp) => createFile G s o.file o.content)
        (fun r => r.action = some ("create")) (fun s o => createFile_action G s o.file o.content)
        st2 (createOpsOf (validatedOf input))
    unfold createPhase at h3
    rw [h3] at hall
    exact hall r hr

/-- Witness for C3: a batch of one create directive against the empty
store runs through the phases and creates the file. -/
theorem C3_macro_phase_order_witness :
    parseAndExecuteJSON ghStore stEmpty (OpsInput.arr [rawCreateA]) =
      ({ files := [("a.txt", { content := "x", sha := "sha-0" })], counter := 1 },
       [{ file := some ("a.txt"), action := some ("create"), success := true,
          message := some ("File created successfully"), commit := some ("commit-0") }]) := by
  simpa using
    (C3_macro_phase_order ghStore stEmpty stEmpty stEmpty
      { files := [("a.txt", { content := "x", sha := "sha-0" })], counter := 1 }
      (OpsInput.arr [rawCreateA]) [] []
      [{ file := some ("a.txt"), action := some ("create"), success := true,
         message := some ("File created successfully"), commit := some ("commit-0") }]
      rfl rfl rfl).1

/-- C4: for every line sequence of length n, an insert at line n+1 appends
at end of file and never raises the out-of-range error, an insert at line
n+2 always raises it, and in general an insert with a numeric line
succeeds exactly when its 0-based start index line-1 is between 0 and n
inclusive. -/
theorem C4_insert_range_boundaries (lines : List String) (code : String) :
    insertAtLine lines (some ((lines.length : Int) + 1)) code = .ok (lines ++ splitNl code) ∧
    insertAtLine lines (some ((lines.length : Int) + 2)) code
      = .error (outOfRangeMsg (some ((lines.length : Int) + 2))) ∧
    (∀ ln : Int, (∃ out, insertAtLine lines (some ln) code = .ok out) ↔
      (0 ≤ ln - 1 ∧ ln - 1 ≤ (lines.length : Int))) := by
  refine ⟨?_, ?_, ?_⟩
  · rw [insertAtLine_ok lines ((lines.length : Int) + 1) code (by omega) (by omega)]
    have h : (((lines.length : Int) + 1 - 1)).toNat = lines.length := by omega
    rw [h, List.take_length, List.drop_length, List.append_nil]
  · exact insertAtLine_oor lines _ code (by omega)
  · intro ln
    constructor
    · rintro ⟨out, hout⟩
      by_contra hc
      rw [insertAtLine_oor lines ln code (by omega)] at hout
      exact Except.noConfusion hout
    · intro hr
      exact ⟨_, insertAtLine_ok lines ln code (by omega) (by omega)⟩

/-- C5: for every file whose line 5 is the single line old (the file being
any pre of length 4, then old, then any post), the group of a delete and
an insert both at line 5 replaces exactly line 5 with new: no other line
moves and the length is unchanged. -/
theorem C5_replace_line (pre post : List String) (hpre : pre.length = 4) :
    applyOps (sortOps [delOp5, insOp5]) (pre ++ "old" :: post) = .ok (pre ++ "new" :: post) := by
  have hsort : sortOps [delOp5, insOp5] = [delOp5, insOp5] := rfl
  rw [hsort]
  have hd : deleteAtLine (pre ++ "old" :: post) (some 5) "old" = .ok (pre ++ post) := by
    have h5 : ((5 : Int) - 1).toNat = 4 := rfl
    have hdrop : (pre ++ "old" :: post).drop 4 = "old" :: post := by
      rw [← hpre]
      exact List.drop_left pre ("old" :: post)
    have hm : (splitNl ("old")).isPrefixOf ((pre ++ "old" :: post).drop ((5 : Int) - 1).toNat)
        = true := by
      rw [h5, hdrop]
      have hs : splitNl ("old") = ["old"] := by decide
      rw [hs]
      simp [List.isPrefixOf]
    rw [deleteAtLine_ok (pre ++ "old" :: post) 5 ("old") (by omega)
      (by simp [hpre]; omega) hm]
    rw [h5]
    have hsplit : (splitNl ("old")).length = 1 := rfl
    rw [hsplit]
    have htake : (pre ++ "old" :: post).take 4 = pre := by
      rw [← hpre]
      exact List.take_left pre ("old" :: post)
    have hdrop5 : (pre ++ "old" :: post).drop (4 + 1) = post := by
      have he : pre ++ "old" :: post = (pre ++ ["old"]) ++ post := by simp
      rw [he]
      have hl : (pre ++ ["old"]).length = 4 + 1 := by simp [hpre]
      rw [← hl]
      exact List.drop_left (pre ++ ["old"]) post
    rw [htake, hdrop5]
  have hi : insertAtLine (pre ++ post) (some 5) "new" = .ok (pre ++ "new" :: post) := by
    rw [insertAtLine_ok (pre ++ post) 5 ("new") (by omega) (by simp [hpre]; omega)]
    have h5 : ((5 : Int) - 1).toNat = 4 := rfl
    rw [h5]
    have htake : (pre ++ post).take 4 = pre := by
      rw [← hpre]
      exact List.take_left pre post
    have hdrop : (pre ++ post).drop 4 = post := by
      rw [← hpre]
      exact List.drop_left pre post
    rw [htake, hdrop]
    have hsplit : splitNl ("new") = ["new"] := rfl
    rw [hsplit]
    simp
  rw [applyOps_delete_step delOp5 [insOp5] (pre ++ "old" :: post) (pre ++ post) rfl hd]
  rw [applyOps_insert_step insOp5 [] (pre ++ post) (pre ++ "new" :: post) rfl hi]
  rfl

/-- Witness for C5: a concrete six-line file. -/
theorem C5_replace_line_witness :
    applyOps (sortOps [delOp5, insOp5]) ["a", "b", "c", "d", "old", "f"] =
      .ok ["a", "b", "c", "d", "new", "f"] := by
  simpa using C5_replace_line ["a", "b", "c", "d"] ["f"] rfl

/-- C6: evaluated at the failing input, the validator does NOT reject an
insert candidate whose line field is the non-numeric string abc; it
returns a validated directive whose line is NaN, contradicting the stated
rule that a non-numeric line is rejected. -/
theorem C6_validator_accepts_non_numeric_line :
    validateOperation rawNaNInsert
      = .ok { action := Action.insert, file := "a.txt", line := none, code := "x" } := by rfl

/-- C7 counterexample: in the regex-based extractor of server.js, an array
whose first element conforms is kept WHOLE, so a later element lacking the
file field is kept rather than silently dropped, refuting the claim that
exactly the conforming elements are kept. -/
theorem C7_server_keeps_nonconforming :
    elemHasActionFile elemBad = false ∧
    serverKeptFromArray [elemOk, elemBad] = [elemOk, elemBad] := ⟨rfl, rfl⟩

/-- C7 amended: in the library-based extractor a parsed array keeps exactly
the elements that are objects with present and truthy action and file
fields, the rest silently dropped; in the regex-based extractor of
server.js the shape check inspects only the first element and keeps or
drops the whole array wholesale. -/
theorem C7_kept_elements :
    (∀ (l : List JElem) (e : JElem),
        e ∈ libKeptFromArray l ↔ e ∈ l ∧ elemHasActionFile e = true) ∧
    (∀ (e : JElem) (l : List JElem), elemHasActionFile e = true →
        serverKeptFromArray (e :: l) = e :: l) ∧
    (∀ (e : JElem) (l : List JElem), elemHasActionFile e = false →
        serverKeptFromArray (e :: l) = []) := by
  refine ⟨?_, ?_, ?_⟩
  · intro l e
    simp [libKeptFromArray, List.mem_filter]
  · intro e l h
    simp [serverKeptFromArray, h]
  · intro e l h
    simp [serverKeptFromArray, h]

/-- Witness for C7: one conforming and one non-conforming singleton array
under the server.js extractor. -/
theorem C7_kept_elements_witness :
    serverKeptFromArray [elemOk] = [elemOk] ∧ serverKeptFromArray [elemBad] = [] :=
  ⟨C7_kept_elements.2.1 elemOk [] (by decide), C7_kept_elements.2.2 elemBad [] (by decide)⟩

/-- C8 counterexample: a fetch that fails with the HTTP 500 message (not
the not-found signal) for the path pages/404.html is misclassified by the
substring test, so createFile issues a genuine create and reports success
instead of yielding a failed OperationResult. -/
theorem C8_not_found_misclassified :
    net500.getFileContent () ("pages/404.html")
      = .error (mkGetFailMsg ("pages/404.html") ("500")) ∧
    createFile net500 () ("pages/404.html") ("x")
      = ((), { file := some ("pages/404.html"), action := some ("create"), success := true,
               message := some ("File created successfully"), commit := some ("c-commit") }) :=
  ⟨rfl, rfl⟩

/-- C8 amended: for every create directive, a successful fetch degrades the
create to an overwrite-update with the fetched version tag and the message
that the file already existed; a fetch failure whose message contains 404
or Not Found (the code detects the not-found signal only by this substring
test) leads to a genuine create without a version tag; a fetch failure
whose message contains neither substring yields a failed OperationResult
for the directive. -/
theorem C8_create_fetch_cases {σ : Type} (G : Gh σ) (st : σ) (p content : String) :
    (∀ (d : FileData) (st2 : σ) (c : String),
        G.getFileContent st p = .ok d →
        G.updateFile st p content d.sha ("Created/updated file via chat interface")
          = .ok (st2, c) →
        createFile G st p content
          = (st2, { file := some p, action := some ("create"), success := true,
                    message := some ("File updated (already existed)"), commit := some c })) ∧
    (∀ (e : String) (st2 : σ) (c : String),
        G.getFileContent st p = .error e →
        (strIncludes e ("404") || strIncludes e ("Not Found")) = true →
        G.createFile st p content ("Created new file via chat interface") = .ok (st2, c) →
        createFile G st p content
          = (st2, { file := some p, action := some ("create"), success := true,
                    message := some ("File created successfully"), commit := some c })) ∧
    (∀ e : String,
        G.getFileContent st p = .error e →
        (strIncludes e ("404") || strIncludes e ("Not Found")) = false →
        createFile G st p content
          = (st, { file := some p, action := some ("create"), success := false,
                   error := some e })) := by
  refine ⟨?_, ?_, ?_⟩
  · intro d st2 c hget hupd
    unfold createFile createInner
    rw [hget]
    simp [hupd]
  · intro e st2 c hget h404 hcreate
    unfold createFile createInner
    rw [hget]
    simp [h404, hcreate]
  · intro e hget h404
    unfold createFile createInner
    rw [hget]
    simp [h404]

/-- Witness for C8: a 500 failure on a path free of the substring 404
yields a failed create result. -/
theorem C8_create_fetch_cases_witness :
    createFile net500 () ("a.txt") ("x") =
      ((), { file := some ("a.txt"), action := some ("create"), success := false,
             error := some (mkGetFailMsg ("a.txt") ("500")) }) :=
  (C8_create_fetch_cases net500 () "a.txt" "x").2.2 (mkGetFailMsg ("a.txt") ("500")) rfl
    (by decide)

/-- C9: for every insert candidate whose line field is a string that
parseInt cannot parse, the validator passes the directive through with a
NaN line, and insertAtLine on a NaN line does not raise the out-of-range
error (both NaN comparisons are false) but splices the code lines in at
the start of the file, index 0. -/
theorem C9_nan_line_flows_to_index_zero (fileStr codeStr lineStr : String)
    (hfile : fileStr ≠ "")
    (hline : parseIntChars lineStr.data = none) :
    validateOperation { action := some (.str ("insert")), file := some (.str fileStr),
                        line := some (.str lineStr), code := some (.str codeStr) }
      = .ok { action := Action.insert, file := fileStr, line := none, code := codeStr } ∧
    (∀ (lines : List String) (code : String),
        insertAtLine lines none code = .ok (splitNl code ++ lines)) := by
  constructor
  · have h2 : validStrField (some (JSPrim.str fileStr)) = some fileStr := by
      simp [validStrField, hfile]
    have h1 : validStrField (some (JSPrim.str ("insert"))) = some ("insert") := rfl
    have e1 : lowerStr ("insert") = "insert" := rfl
    unfold validateOperation
    rw [h2, h1]
    simp [e1, parseIntPrim, hline, JSPrim.toStr]
  · intro lines code
    rfl

/-- Witness for C9: the line string abc and a one-line file. -/
theorem C9_nan_line_flows_to_index_zero_witness :
    validateOperation { action := some (.str ("insert")), file := some (.str ("a.txt")),
                        line := some (.str ("abc")), code := some (.str ("x")) }
      = .ok { action := Action.insert, file := "a.txt", line := none, code := "x" } ∧
    insertAtLine ["k"] none ("y") = .ok ["y", "k"] := by
  have h := C9_nan_line_flows_to_index_zero "a.txt" "x" "abc" (by decide) (by decide)
  exact ⟨h.1, h.2 ["k"] "y"⟩

/-- C10: a non-array argument to parseAndExecuteJSON is wrapped into a
one-element batch, so calling it with a single directive object is the
same as calling it with the one-element array holding that object. -/
theorem C10_single_object_wrapped {σ : Type} (G : Gh σ) (st : σ) (o : RawOp) :
    parseAndExecuteJSON G st (OpsInput.single o) = parseAndExecuteJSON G st (OpsInput.arr [o]) :=
  rfl

end Coder
